import Mathlib

/-!
Verification development for a financial reconciliation tool.

The development shallowly embeds the core logic of the tool's Python
modules (`reconcile.py`, `processors.py`, `config.py`, `rate_tool_app.py`,
`rate_tool_integration.py`) as executable Lean definitions and proves
properties of those definitions.  Monetary amounts are modelled as
rationals (the source computes with decimal literals); Python dictionaries
are modelled as association lists with Python's insertion-order/overwrite
semantics; Python regular-expression searches used by the source are
modelled by explicit scanning functions specialised to the concrete
patterns that occur in the code.
-/

namespace Recon

/-- Decidable substring test on character lists: models Python's
`needle in haystack` membership test for strings. -/
def containsSub (needle : List Char) : List Char → Bool
  | [] => needle.isEmpty
  | c :: t => needle.isPrefixOf (c :: t) || containsSub needle t

/-- Python `pat in s` for strings. -/
def strContains (s pat : String) : Bool := containsSub pat.data s.data

/-- ASCII lower-casing of one character (Python `str.lower` on the ASCII
labels this code base manipulates). -/
def charLower (c : Char) : Char :=
  if 'A' ≤ c ∧ c ≤ 'Z' then Char.ofNat (c.toNat + 32) else c

/-- ASCII upper-casing of one character (Python `str.upper`). -/
def charUpper (c : Char) : Char :=
  if 'a' ≤ c ∧ c ≤ 'z' then Char.ofNat (c.toNat - 32) else c

def lowerChars (cs : List Char) : List Char := cs.map charLower

def upperChars (cs : List Char) : List Char := cs.map charUpper

/-- Python `str.strip()` on a character list. -/
def trimChars (cs : List Char) : List Char :=
  ((cs.dropWhile Char.isWhitespace).reverse.dropWhile Char.isWhitespace).reverse

/-- Python `str.strip()`. -/
def pyStrip (s : String) : String := String.mk (trimChars s.data)

/-- Python `str.lower()`. -/
def pyLower (s : String) : String := String.mk (lowerChars s.data)

/-- Python `str.upper()`. -/
def pyUpper (s : String) : String := String.mk (upperChars s.data)

/-! ### Column normalization (`processors.py`, `normalize_columns`) -/

/-- `str(col).strip().lower().replace(" ", "").replace("_", "")` -/
def cleanLabel (s : String) : String :=
  String.mk ((lowerChars (trimChars s.data)).filter (fun c => !(c == ' ' || c == '_')))

/-- `config.py` `COLUMN_MAPPINGS`: ordered (patterns, target) rules. -/
def COLUMN_MAPPINGS : List (List String × String) :=
  [ (["transaction", "transact", "txn", "trans_id", "id"], "Transaction ID"),
    (["rrn", "reference", "ref_no", "ref_number"], "RRN No"),
    (["merchant", "shop", "store", "business"], "Merchant"),
    (["mcc", "merchant_code", "category_code"], "MCC Code"),
    (["amount", "value", "sum", "total", "amt"], "Amount"),
    (["interchange", "fee", "commission"], "Interchange"),
    (["dr", "debit", "debit_amount"], "DR"),
    (["cr", "credit", "credit_amount"], "CR"),
    (["net", "net_amount", "balance"], "Net") ]

/-- One label's pass through the rule table: the first rule one of whose
patterns occurs in the cleaned label wins, unmatched labels are kept. -/
def normalizeLabel (col : String) : String :=
  match COLUMN_MAPPINGS.find? (fun m => m.1.any (fun p => strContains (cleanLabel col) p)) with
  | some m => m.2
  | none => col

/-- `normalize_columns` applied to a table's column labels. -/
def normalize_columns (cols : List String) : List String := cols.map normalizeLabel

/-! ### Header auto-detection (`processors.py`, `load_excel_with_autodetect`) -/

/-- Cell preparation in the detection scan:
`row.astype(str).str.strip().str.lower()`. -/
def cellNorm (s : String) : String := pyLower (pyStrip s)

/-- `all(any(pattern in val for val in row_values) for pattern in detection_patterns)` -/
def rowMatchesProfile (patterns : List String) (row : List String) : Bool :=
  patterns.all (fun p => row.any (fun v => strContains (cellNorm v) p))

/-- Index of the first row satisfying the whole profile, scanning
top-to-bottom. -/
def findHeaderRow : List (List String) → List String → Option Nat
  | [], _ => none
  | row :: rest, ps =>
    if rowMatchesProfile ps row then some 0
    else (findHeaderRow rest ps).map (· + 1)

/-- `config.py` `HEADER_DETECTION` profiles. -/
def HEADER_DETECTION : List (String × List String) :=
  [ ("transaction_excel", ["transact", "rrn"]),
    ("bank_excel", ["dr", "cr", "net"]) ]

/-- `load_excel_with_autodetect`, reduced to its header-finding contract:
returns the detected header row index, or the `ValueError` message when no
row satisfies every pattern of the profile. -/
def load_excel_with_autodetect (grid : List (List String)) (patterns : List String) :
    Except String Nat :=
  match findHeaderRow grid patterns with
  | some i => Except.ok i
  | none => Except.error "Could not detect header"

/-! ### Shared string helpers for the text pipeline -/

/-- Python `s.startswith(pat)`. -/
def strStartsWith (s pat : String) : Bool := pat.data.isPrefixOf s.data

/-- Python `s.endswith(pat)`. -/
def strEndsWith (s pat : String) : Bool := pat.data.isSuffixOf s.data

/-- Python `str.replace(pat, sub)`: replace every non-overlapping
occurrence, scanning left to right.  Structural recursion on a fuel
argument; every step consumes at least one character, so fuel equal to
the list length always suffices.  (All call sites use a non-empty `pat`;
an empty `pat` leaves the string unchanged.) -/
def replaceListF (pat sub : List Char) : Nat → List Char → List Char
  | 0, cs => cs
  | _, [] => []
  | fuel + 1, c :: t =>
    if pat ≠ [] ∧ pat.isPrefixOf (c :: t) then
      sub ++ replaceListF pat sub fuel (t.drop (pat.length - 1))
    else c :: replaceListF pat sub fuel t

def replaceList (pat sub cs : List Char) : List Char :=
  replaceListF pat sub cs.length cs

/-- Python `str.replace` on strings. -/
def pyReplace (s pat sub : String) : String := String.mk (replaceList pat.data sub.data s.data)

/-- Value of a digit list read in base 10. -/
def digitsToNat (ds : List Char) : Nat := ds.foldl (fun n c => 10 * n + (c.toNat - 48)) 0

/-- Models Python's builtin `float()` on decimal literals: optional sign,
integer part, optional fractional part, optional exponent.  Special forms
(`inf`, `nan`, underscore separators) are not modelled; none of the
amounts this program parses use them.  Returns `none` where `float()`
raises `ValueError`. -/
def pyFloat (s : String) : Option ℚ :=
  let cs := s.data
  let signAndRest : ℚ × List Char :=
    match cs with
    | '+' :: t => (1, t)
    | '-' :: t => (-1, t)
    | _ => (1, cs)
  let sign := signAndRest.1
  let cs1 := signAndRest.2
  let ip := cs1.takeWhile Char.isDigit
  let cs2 := cs1.dropWhile Char.isDigit
  let fpAndRest : List Char × List Char :=
    match cs2 with
    | '.' :: t => (t.takeWhile Char.isDigit, t.dropWhile Char.isDigit)
    | _ => ([], cs2)
  let fp := fpAndRest.1
  let cs3 := fpAndRest.2
  if ip.isEmpty && fp.isEmpty then none
  else
    let mantissa : ℚ := sign * ((digitsToNat ip : ℚ) + (digitsToNat fp : ℚ) / ((10 : ℚ) ^ fp.length))
    match cs3 with
    | [] => some mantissa
    | e :: t =>
      if e == 'e' || e == 'E' then
        let esignAndRest : Int × List Char :=
          match t with
          | '+' :: r => (1, r)
          | '-' :: r => (-1, r)
          | _ => (1, t)
        let ed := esignAndRest.2.takeWhile Char.isDigit
        let t2 := esignAndRest.2.dropWhile Char.isDigit
        if ed.isEmpty || !t2.isEmpty then none
        else some (mantissa * (10 : ℚ) ^ (esignAndRest.1 * (digitsToNat ed : Int)))
      else none

/-! ### Amount parsing (`reconcile.py`, `parse_amount`) -/

/-- Python `value[:-2]`. -/
def dropLastTwo (s : String) : String := String.mk (s.data.dropLast.dropLast)

/-- `parse_amount`: convert amounts like `'1,540,000.00DB'` or
`'1,500.00CR'` into signed rationals; empty or unparsable input yields 0. -/
def parse_amount (value : String) : ℚ :=
  if (pyStrip value).data.isEmpty then 0
  else
    let v := pyStrip (String.mk (value.data.filter (fun c => c != ',')))
    if strEndsWith v "DB" then ((pyFloat (dropLastTwo v)).getD 0)
    else if strEndsWith v "CR" then
      match pyFloat (dropLastTwo v) with
      | some q => -q
      | none => 0
    else (pyFloat v).getD 0

/-- A character that survives the cleaning steps of `parse_amount`
untouched: not a comma and not whitespace. -/
def plainChar (c : Char) : Bool := !(c == ',') && !c.isWhitespace

/-! ### Numeric token extraction (`reconcile.py`, `extract_from_txt`)

`re.findall(r"[\d,]+\.\d{2}(?:DB|CR)?", line)`: a maximal run of digits
and commas, a dot, exactly two digits, an optional `DB`/`CR` suffix. -/

def isNumChar (c : Char) : Bool := c.isDigit || c == ','

/-- Length in characters of a successful regex match at the head of the
list: the digit/comma run, the dot, the two decimals, and an optional
`DB`/`CR` suffix. -/
def matchTokenLen (cs : List Char) : Option Nat :=
  let run := cs.takeWhile isNumChar
  let rest := cs.dropWhile isNumChar
  if run.isEmpty then none
  else
    match rest with
    | '.' :: d1 :: d2 :: rest2 =>
      if d1.isDigit && d2.isDigit then
        match rest2 with
        | 'D' :: 'B' :: _ => some (run.length + 5)
        | 'C' :: 'R' :: _ => some (run.length + 5)
        | _ => some (run.length + 3)
      else none
    | _ => none

/-- One attempted regex match at the head of the list: the matched token
and the remaining characters after it. -/
def matchAt (cs : List Char) : Option (String × List Char) :=
  (matchTokenLen cs).map (fun n => (String.mk (cs.take n), cs.drop n))

/-- `re.findall` for the token pattern: scan left to right, emitting each
match and resuming after it, else advancing one character.  Fuel equal to
the list length suffices: every step strictly shortens the list. -/
def findNumbersF : Nat → List Char → List String
  | 0, _ => []
  | _, [] => []
  | fuel + 1, c :: rest =>
    match matchAt (c :: rest) with
    | some (t, rem) => t :: findNumbersF fuel rem
    | none => findNumbersF fuel rest

def findNumbers (cs : List Char) : List String := findNumbersF cs.length cs

/-! ### Per-line section derivation (`extract_from_txt`) -/

/-- `re.sub(r"[\d,\.]+.*", "", line)`: truncate at the first digit, comma
or dot. -/
def stripFromFirstNum (cs : List Char) : List Char :=
  cs.takeWhile (fun c => !(c.isDigit || c == ',' || c == '.'))

/-- `VALID_SECTIONS` allow-list. -/
def validSections : List String :=
  ["INTERCHANGE", "REIMBURSEMENT", "REIMBURSEMENTFEES", "VISACHARGES", "NETSETTLEMENT", "TOTAL"]

/-- Derivation of the canonical section label of one (already stripped)
report line. -/
def lineSection (line : String) : String :=
  let upper := pyUpper line
  let base :=
    if strStartsWith upper "TOTAL" || strContains upper "NET SETTLEMENT AMOUNT" then
      let s1 := pyStrip (String.mk (stripFromFirstNum line.data))
      let s2 := pyStrip (pyReplace (pyReplace (pyReplace s1 "TOTAL" "") "AMOUNT" "") "VALUE" "")
      if s2.data.isEmpty then "TOTAL" else s2
    else
      pyStrip (String.mk (stripFromFirstNum line.data))
  pyUpper (pyReplace base " " "")

/-- A ledger entry: the DR/CR/Net values of one section. -/
structure Entry where
  dr : ℚ
  cr : ℚ
  net : ℚ
deriving DecidableEq, Repr

/-- Processing of one physical line of the settlement report: `none` when
the line is blank, its section is not in the allow-list, or it carries no
numeric token; otherwise the (section, entry) pair that is stored. -/
def extractLineEntry (rawLine : String) : Option (String × Entry) :=
  let line := pyStrip rawLine
  if line.data.isEmpty then none
  else
    let sec := lineSection line
    if !(validSections.contains sec) then none
    else
      match findNumbers line.data with
      | [] => none
      | n0 :: restNums =>
        let cr := parse_amount n0
        let dr := match restNums with
          | [] => 0
          | n1 :: _ => parse_amount n1
        let net := match restNums with
          | _ :: n2 :: _ => parse_amount n2
          | _ => dr - cr
        some (sec, ⟨dr, cr, net⟩)

/-! ### Dictionaries with Python `dict` semantics -/

/-- `d[k] = v`: overwrite in place if the key exists, else append. -/
def dictInsert {V : Type} (d : List (String × V)) (k : String) (v : V) : List (String × V) :=
  match d with
  | [] => [(k, v)]
  | (k', v') :: t => if k' = k then (k', v) :: t else (k', v') :: dictInsert t k v

/-- `d.get(k)`. -/
def dictGet {V : Type} (d : List (String × V)) (k : String) : Option V :=
  (d.find? (fun p => p.1 = k)).map Prod.snd

/-- `extract_from_txt` reduced to its line-processing core: fold the
per-line extraction over the report's stripped lines into a dict. -/
def extract_from_txt (lines : List String) : List (String × Entry) :=
  lines.foldl
    (fun d l =>
      match extractLineEntry l with
      | some (s, e) => dictInsert d s e
      | none => d) []

/-! ### Section normalization and reconciliation (`reconcile.py`) -/

/-- `SECTION_MAP`. -/
def SECTION_MAP : List (String × String) :=
  [ ("INTERCHANGE", "Interchange"),
    ("REIMBURSEMENT", "Reimbursement"),
    ("REIMBURSEMENTFEES", "Reimbursement"),
    ("VISA CHARGES", "VisaCharges"),
    ("VISACHARGES", "VisaCharges"),
    ("TOTAL", "Total"),
    ("NETSETTLEMENT", "Total") ]

/-- `SECTION_MAP.get(section.upper().replace(" ", ""), section)`. -/
def sectionKey (s : String) : String :=
  match dictGet SECTION_MAP (pyReplace (pyUpper s) " " "") with
  | some k => k
  | none => s

/-- `normalize_sections`: rebuild the dict under canonical section keys;
a later entry whose key collides silently overwrites the earlier one. -/
def normalize_sections (data : List (String × Entry)) : List (String × Entry) :=
  data.foldl (fun acc p => dictInsert acc (sectionKey p.1) p.2) []

/-- One output row of the reconciliation. -/
structure Row where
  sec : String
  check : String
  bankVal : ℚ
  visaVal : ℚ
  status : String
  diff : ℚ
deriving DecidableEq, Repr

/-- The three compared fields, in the order the code iterates them. -/
def fields : List String := ["DR", "CR", "Net"]

/-- `vals.get(field, 0.0)` on an entry (only ever applied to the three
field names). -/
def entryField (e : Entry) (f : String) : ℚ :=
  if f = "DR" then e.dr else if f = "CR" then e.cr else e.net

def mkRow (sec f : String) (b v : ℚ) : Row :=
  ⟨sec, f, b, v, if b = v then "Match" else "Mismatch", b - v⟩

def defaultEntry : Entry := ⟨0, 0, 0⟩

/-- The three rows emitted for one section. -/
def rowsFor (sec : String) (be ve : Entry) : List Row :=
  fields.map (fun f => mkRow sec f (entryField be f) (entryField ve f))

/-- The union of the two dicts' keys, deduplicated.  The source builds a
Python `set`, whose iteration order is not a function of the inputs; this
list fixes one admissible enumeration (first appearance order), and
`reconcileWith` below takes the enumeration as an explicit parameter. -/
def unionKeys (b v : List (String × Entry)) : List String :=
  (b.map Prod.fst ++ v.map Prod.fst).dedup

/-- The reconciliation loop body, run over a given enumeration of the
section keys. -/
def reconcileWith (order : List String) (b v : List (String × Entry)) : List Row :=
  order.flatMap
    (fun sec => rowsFor sec ((dictGet b sec).getD defaultEntry) ((dictGet v sec).getD defaultEntry))

/-- `reconcile`, with the union set enumerated in first-appearance order. -/
def reconcile (bank visa : List (String × Entry)) : List Row :=
  reconcileWith (unionKeys (normalize_sections bank) (normalize_sections visa))
    (normalize_sections bank) (normalize_sections visa)

/-- `reconcile` run with an arbitrary enumeration of the union set,
modelling the unspecified iteration order of Python's `set`. -/
def reconcileEnum (order : List String) (bank visa : List (String × Entry)) : List Row :=
  reconcileWith order (normalize_sections bank) (normalize_sections visa)

/-- `order` is an admissible iteration order of the union set for the
given inputs: no repetitions, same members. -/
def IsEnumOf (order : List String) (bank visa : List (String × Entry)) : Prop :=
  order.Nodup ∧
    ∀ s, s ∈ order ↔ s ∈ unionKeys (normalize_sections bank) (normalize_sections visa)



/-! ### Fee-formula interpreter (`rate_tool_app.py`)

Interpolated success-path `calculation_method` strings render their
numbers with `toString` on the model's exact numbers, abstracting
Python's float formatting; the claim-relevant method values
(`'Unknown Formula'`, `'Error'`, `'Error in tiered calculation'`,
`'Fixed Amount'`) are literal. -/

/-- The first number of the string under the regex
`(\d+(?:\.\d+)?)` when it starts here, as Python `float` reads it. -/
def numHead : List Char → Option ℚ
  | [] => none
  | c :: rest =>
    if c.isDigit then
      let run := (c :: rest).takeWhile Char.isDigit
      let after := (c :: rest).dropWhile Char.isDigit
      some
        (match after with
        | '.' :: t =>
          let fr := t.takeWhile Char.isDigit
          if fr.isEmpty then (digitsToNat run : ℚ)
          else (digitsToNat run : ℚ) + (digitsToNat fr : ℚ) / (10 : ℚ) ^ fr.length
        | _ => (digitsToNat run : ℚ))
    else none

/-- `re.search(r'(\d+(?:\.\d+)?)', s)`: the first number anywhere in
the string. -/
def firstNumber : List Char → Option ℚ
  | [] => none
  | c :: rest =>
    match numHead (c :: rest) with
    | some q => some q
    | none => firstNumber rest

/-- `re.search(r'(\d+)k', s)`: the first digit run immediately followed
by `k`. -/
def thresholdNum : List Char → Option Nat
  | [] => none
  | c :: rest =>
    if c.isDigit then
      match (c :: rest).dropWhile Char.isDigit with
      | 'k' :: _ => some (digitsToNat ((c :: rest).takeWhile Char.isDigit))
      | _ => thresholdNum rest
    else thresholdNum rest

/-- `re.search(r'\*\s*(?:Rs|rs|\$)?(\d+(?:\.\d+)?)', s)`: a star,
optional whitespace, an optional currency marker, then a number
(backtracking over the optional marker). -/
def starRate : List Char → Option ℚ
  | [] => none
  | c :: rest =>
    if c = '*' then
      let t1 := rest.dropWhile Char.isWhitespace
      let afterCur :=
        if ['R', 's'].isPrefixOf t1 ∨ ['r', 's'].isPrefixOf t1 then t1.drop 2
        else if ['$'].isPrefixOf t1 then t1.drop 1
        else t1
      match numHead afterCur with
      | some q => some q
      | none =>
        match numHead t1 with
        | some q => some q
        | none => starRate rest
    else starRate rest

/-- Python `str.split(sep)` for a one-character separator. -/
def splitOnChar (sep : Char) (cs : List Char) : List (List Char) :=
  cs.foldr
    (fun c acc =>
      match acc with
      | [] => if c = sep then [[], []] else [[c]]
      | h :: t => if c = sep then [] :: h :: t else (c :: h) :: t) [[]]

def pySplitOn (s : String) (sep : Char) : List String :=
  (splitOnChar sep s.data).map String.mk

/-- Python `str.isdigit` (ASCII digits). -/
def isDigitStr (s : String) : Bool := !s.data.isEmpty && s.data.all Char.isDigit

/-- The structured record every fee calculation returns.  `currency` and
`err` are `none` where the Python dict omits the key. -/
structure FeeResult where
  amount : ℚ
  method : String
  formula : String
  currency : Option String
  err : Option String
deriving DecidableEq, Repr

/-- `calculate_tiered_card_fee`. -/
def calculate_tiered_card_fee (formula : String) (cardCount : ℤ) : FeeResult :=
  let secondRate : ℚ :=
    match pySplitOn formula '\n' with
    | _ :: l2 :: _ =>
      match firstNumber l2.data with
      | some r => r
      | none => 0
    | _ => 0
  match firstNumber formula.data, thresholdNum (pyLower formula).data with
  | some fr, some th =>
    let thN : ℤ := (th : ℤ) * 1000
    if cardCount ≤ thN then
      { amount := (cardCount : ℚ) * fr,
        method := "All " ++ toString cardCount ++ " cards at $" ++ toString fr ++ " each",
        formula := formula, currency := some "$", err := none }
    else
      { amount := (thN : ℚ) * fr + ((cardCount - thN : ℤ) : ℚ) * secondRate,
        method := "First " ++ toString thN ++ " cards at $" ++ toString fr ++ ", remaining " ++
          toString (cardCount - thN) ++ " cards at $" ++ toString secondRate,
        formula := formula, currency := some "$", err := none }
  | _, _ =>
    { amount := 0, method := "Error in tiered calculation", formula := formula,
      currency := none, err := none }

/-- `calculate_per_transaction_fee`. -/
def calculate_per_transaction_fee (formula : String) (t : ℤ) : FeeResult :=
  match firstNumber formula.data with
  | some rate =>
    let curr := if strContains (pyLower formula) "rs" then "Rs" else "$"
    { amount := (t : ℚ) * rate,
      method := toString t ++ " transactions × " ++ curr ++ toString rate,
      formula := formula, currency := some curr, err := none }
  | none =>
    { amount := 0, method := "Error", formula := formula, currency := none, err := none }

/-- `calculate_per_dispute_fee`. -/
def calculate_per_dispute_fee (formula : String) (t : ℤ) : FeeResult :=
  match firstNumber formula.data with
  | some rate =>
    let curr := if strContains (pyLower formula) "rs" then "Rs" else "$"
    { amount := (t : ℚ) * rate,
      method := toString t ++ " disputes × " ++ curr ++ toString rate,
      formula := formula, currency := some curr, err := none }
  | none =>
    { amount := 0, method := "Error", formula := formula, currency := none, err := none }

/-- `calculate_transaction_volume_fee`. -/
def calculate_transaction_volume_fee (formula : String) (t : ℤ) : FeeResult :=
  match firstNumber formula.data with
  | some rate =>
    { amount := (t : ℚ) * rate,
      method := toString t ++ " transactions × $" ++ toString rate,
      formula := formula, currency := some "$", err := none }
  | none =>
    { amount := 0, method := "Error", formula := formula, currency := none, err := none }

/-- `calculate_transaction_amount_fee`. -/
def calculate_transaction_amount_fee (formula : String) (a : ℚ) : FeeResult :=
  let rate? :=
    match starRate formula.data with
    | some r => some r
    | none => firstNumber formula.data
  match rate? with
  | some rate =>
    let curr := if strContains (pyLower formula) "rs" then "Rs" else "$"
    { amount := a * rate,
      method := "$" ++ toString a ++ " × " ++ toString rate,
      formula := formula, currency := some curr, err := none }
  | none =>
    { amount := 0, method := "Error", formula := formula, currency := none, err := none }

/-- `calculate_fee_amount`: ordered substring triggers dispatching to the
calculators; no trigger yields the `'Unknown Formula'` record; every path
returns a structured record (the function is total). -/
def calculate_fee_amount (rateFormula : String) (cardCount transactionCount : ℤ)
    (transactionAmount : ℚ) : FeeResult :=
  let f := pyStrip rateFormula
  let low := pyLower f
  if strContains low "first" && strContains low "thereafter" then
    calculate_tiered_card_fee f cardCount
  else if strContains low "per transaction" then
    calculate_per_transaction_fee f transactionCount
  else if strContains low "per dispute" then
    calculate_per_dispute_fee f transactionCount
  else if strContains low "no of tran" && strContains f "$" then
    calculate_transaction_volume_fee f transactionCount
  else if strContains low "amount of tran" || strContains low "amout of tran" then
    calculate_transaction_amount_fee f transactionAmount
  else if isDigitStr f then
    { amount := (digitsToNat f.data : ℚ), method := "Fixed Amount", formula := f,
      currency := some "$", err := none }
  else
    { amount := 0, method := "Unknown Formula", formula := f, currency := none,
      err := some "Could not parse rate formula" }

/-! ### Fuzzy fee matcher (`rate_tool_integration.py`, `fuzzy_match_fee_types`) -/

/-- Python regex word character (`\w`), ASCII. -/
def wordChar (c : Char) : Bool := c.isAlphanum || c == '_'

/-- The words removed by `normalize_fee_name`. -/
def feeStopwords : List String := ["fee", "charge", "cost", "amount", "total", "value"]

/-- `re.sub(r'\b(fee|charge|cost|amount|total|value)\b', '', s)`: since
the stopwords consist solely of word characters, the word-boundary match
removes exactly the maximal word-character runs equal to a stopword. -/
def removeStopRunsF : Nat → List Char → List Char
  | 0, cs => cs
  | _, [] => []
  | fuel + 1, c :: t =>
    if wordChar c then
      let run := (c :: t).takeWhile wordChar
      let rest := (c :: t).dropWhile wordChar
      (if feeStopwords.contains (String.mk run) then [] else run) ++ removeStopRunsF fuel rest
    else c :: removeStopRunsF fuel t

/-- `re.sub(r'\s+', ' ', s)`: collapse every whitespace run to one
space. -/
def collapseWSF : Nat → List Char → List Char
  | 0, cs => cs
  | _, [] => []
  | fuel + 1, c :: t =>
    if c.isWhitespace then ' ' :: collapseWSF fuel (t.dropWhile Char.isWhitespace)
    else c :: collapseWSF fuel t

/-- `normalize_fee_name`: lowercase, drop stopwords, drop punctuation,
collapse whitespace, strip. -/
def normalize_fee_name (name : String) : String :=
  let s1 := (pyLower name).data
  let s2 := removeStopRunsF s1.length s1
  let s3 := s2.filter (fun c => wordChar c || c.isWhitespace)
  let s4 := collapseWSF s3.length s3
  pyStrip (String.mk s4)

/-- The token set of a normalized fee label (Python `str.split()` on the
collapsed, stripped string, as a set). -/
def feeTokens (s : String) : Finset String :=
  (if (normalize_fee_name s).data = [] then []
   else pySplitOn (normalize_fee_name s) ' ').toFinset

/-- The similarity score computed in the partial-match loop:
token-set Jaccard similarity (`intersection / union`, 0 for an empty
union). -/
def pairScore (c i : String) : ℚ :=
  if 0 < ((feeTokens c) ∪ (feeTokens i)).card then
    (((feeTokens c) ∩ (feeTokens i)).card : ℚ) / (((feeTokens c) ∪ (feeTokens i)).card : ℚ)
  else 0

/-- One iteration of the best-candidate scan: update the running best
when both token sets are non-empty and the score beats both the running
best and the 0.3 threshold. -/
def fuzzyStep (c : String) (best : Option String × ℚ) (i : String) : Option String × ℚ :=
  if (feeTokens c).Nonempty ∧ (feeTokens i).Nonempty then
    if pairScore c i > best.2 ∧ pairScore c i > 3 / 10 then (some i, pairScore c i) else best
  else best

/-- The best fuzzy candidate for one unmatched calculated label. -/
def bestMatchFold (c : String) (invs : List String) : Option String × ℚ :=
  invs.foldl (fuzzyStep c) (none, 0)

/-- One exact-phase iteration: record the first invoice label whose
normalized form equals the calculated label's. -/
def exactStep (invoiceFees : List String) (m : List (String × String)) (c : String) :
    List (String × String) :=
  match invoiceFees.find? (fun i => normalize_fee_name c == normalize_fee_name i) with
  | some i => dictInsert m c i
  | none => m

/-- One greedy-phase iteration: record the best-scoring candidate when
one exists. -/
def fuzzyPass (invs : List String) (m : List (String × String)) (c : String) :
    List (String × String) :=
  match (bestMatchFold c invs).1 with
  | some i => dictInsert m c i
  | none => m

/-- `fuzzy_match_fee_types`: exact matches on normalized labels first,
then a greedy fuzzy pass over the labels left unmatched by the exact
pass.  The unmatched-invoice list is computed once, before the greedy
pass, and never updated inside it. -/
def fuzzy_match_fee_types (calcFees invoiceFees : List String) : List (String × String) :=
  let exact := calcFees.foldl (exactStep invoiceFees) []
  let unmatchedInv := invoiceFees.filter (fun i => !(exact.any (fun p => p.2 == i)))
  (calcFees.filter (fun c => !(exact.any (fun p => p.1 == c)))).foldl
    (fuzzyPass unmatchedInv) exact

/-- Swap of one reconciliation row: exchange the two value columns and
negate the difference (section, field and status unchanged). -/
def swapRow (r : Row) : Row :=
  ⟨r.sec, r.check, r.visaVal, r.bankVal, r.status, -r.diff⟩

end Recon

namespace Recon

/-- Helper for C9: every rule's target is itself left fixed by another
normalization pass. -/
theorem normalizeLabel_target_fixed :
    ∀ m ∈ COLUMN_MAPPINGS, normalizeLabel m.2 = m.2 := by
  decide

/-- Label-level idempotence of column normalization. -/
theorem normalizeLabel_idem (c : String) : normalizeLabel (normalizeLabel c) = normalizeLabel c := by
  by_cases h : (COLUMN_MAPPINGS.find? (fun m => m.1.any (fun p => strContains (cleanLabel c) p))).isSome
  · obtain ⟨m, hm⟩ := Option.isSome_iff_exists.mp h
    have hmem : m ∈ COLUMN_MAPPINGS := List.mem_of_find?_eq_some hm
    have h1 : normalizeLabel c = m.2 := by
      unfold normalizeLabel
      rw [hm]
    rw [h1]
    exact normalizeLabel_target_fixed m hmem
  · have h1 : normalizeLabel c = c := by
      unfold normalizeLabel
      rw [Option.not_isSome_iff_eq_none.mp h]
    simp only [h1]

/-- C9: Column normalization is idempotent: for every table, applying
`normalize_columns` twice yields the same column labels as applying it
once; in particular a second pass over the canonical names
(Transaction ID, RRN No, Merchant, MCC Code, Amount, Interchange, DR, CR,
Net) produces no further renaming, because each canonical name re-matches
a rule whose target is itself. -/
theorem claim_C9_normalize_columns_idempotent :
    (∀ cols : List String, normalize_columns (normalize_columns cols) = normalize_columns cols) ∧
    normalize_columns ["Transaction ID", "RRN No", "Merchant", "MCC Code", "Amount",
        "Interchange", "DR", "CR", "Net"] =
      ["Transaction ID", "RRN No", "Merchant", "MCC Code", "Amount",
        "Interchange", "DR", "CR", "Net"] := by
  refine ⟨fun cols => ?_, by decide⟩
  unfold normalize_columns
  rw [List.map_map]
  exact List.map_congr_left fun c _ => normalizeLabel_idem c

/-- The header scan returns index `i` exactly when row `i` satisfies the
whole profile and no earlier row does. -/
theorem findHeaderRow_some_iff (ps : List String) :
    ∀ (grid : List (List String)) (i : Nat),
      findHeaderRow grid ps = some i ↔
        ∃ row, grid.get? i = some row ∧ rowMatchesProfile ps row = true ∧
          ∀ row' ∈ grid.take i, rowMatchesProfile ps row' = false := by
  intro grid
  induction grid with
  | nil => intro i; simp [findHeaderRow]
  | cons row rest ih =>
    intro i
    by_cases h : rowMatchesProfile ps row
    · cases i with
      | zero => simp [findHeaderRow, h]
      | succ k =>
        simp only [findHeaderRow, h, if_pos rfl]
        constructor
        · intro hc; exact absurd hc (by simp)
        · rintro ⟨r, _, _, hall⟩
          have := hall row (by simp)
          rw [h] at this
          exact absurd this (by simp)
    · cases i with
      | zero =>
        simp only [findHeaderRow, if_neg h]
        constructor
        · intro hc
          rcases Option.map_eq_some'.mp hc with ⟨a, _, ha⟩
          omega
        · rintro ⟨r, hr, hmatch, _⟩
          simp only [List.get?_cons_zero, Option.some.injEq] at hr
          subst hr
          rw [hmatch] at h
          simp at h
      | succ k =>
        simp only [findHeaderRow, if_neg h]
        constructor
        · intro hc
          rcases Option.map_eq_some'.mp hc with ⟨a, ha, hak⟩
          have ha' : findHeaderRow rest ps = some k := by
            have hk : a = k := by omega
            rwa [hk] at ha
          rcases (ih k).mp ha' with ⟨r, hr, hmatch, hall⟩
          refine ⟨r, by simpa using hr, hmatch, ?_⟩
          intro row' hrow'
          simp only [List.take_succ_cons, List.mem_cons] at hrow'
          rcases hrow' with rfl | hrow'
          · simpa using h
          · exact hall row' hrow'
        · rintro ⟨r, hr, hmatch, hall⟩
          have hrest : findHeaderRow rest ps = some k := by
            refine (ih k).mpr ⟨r, by simpa using hr, hmatch, ?_⟩
            intro row' hrow'
            exact hall row' (by simp [hrow'])
          rw [hrest]
          rfl

/-- The header scan fails exactly when no row satisfies the profile. -/
theorem findHeaderRow_none_iff (ps : List String) (grid : List (List String)) :
    findHeaderRow grid ps = none ↔ ∀ row ∈ grid, rowMatchesProfile ps row = false := by
  induction grid with
  | nil => simp [findHeaderRow]
  | cons row rest ih =>
    by_cases h : rowMatchesProfile ps row
    · simp [findHeaderRow, h]
    · simp only [findHeaderRow, if_neg h, Option.map_eq_none', List.mem_cons]
      rw [ih]
      constructor
      · intro hall r hr
        rcases hr with rfl | hr
        · simpa using h
        · exact hall r hr
      · intro hall r hr
        exact hall r (Or.inr hr)

/-- C4: Given an untyped grid and a non-empty detection profile of
lowercase tokens, header auto-detection scans rows top-to-bottom and
selects as header the first row in which every profile token occurs as a
substring of some cell of that row (after case-insensitive lowering and
whitespace stripping); if no row satisfies all tokens, it returns the
header-not-found error instead of a table. -/
theorem claim_C4_header_autodetect (grid : List (List String)) (patterns : List String)
    (hp : patterns ≠ []) :
    (∀ i, load_excel_with_autodetect grid patterns = Except.ok i ↔
        ∃ row, grid.get? i = some row ∧ rowMatchesProfile patterns row = true ∧
          ∀ row' ∈ grid.take i, rowMatchesProfile patterns row' = false) ∧
    (load_excel_with_autodetect grid patterns = Except.error "Could not detect header" ↔
        ∀ row ∈ grid, rowMatchesProfile patterns row = false) := by
  clear hp
  constructor
  · intro i
    rw [← findHeaderRow_some_iff]
    unfold load_excel_with_autodetect
    cases h : findHeaderRow grid patterns <;> simp [h]
  · rw [← findHeaderRow_none_iff]
    unfold load_excel_with_autodetect
    cases h : findHeaderRow grid patterns <;> simp [h]

/-- Witness for C4 at the spec's concrete example: a grid whose third row
(index 2) is the first satisfying profile `["transact", "rrn"]`, and a
grid with no satisfying row. -/
theorem claim_C4_header_autodetect_witness :
    (load_excel_with_autodetect
        [["Report"], ["meta", "x"], ["Transaction ID", "RRN No"], ["1", "2"]]
        ["transact", "rrn"] = Except.ok 2) ∧
    (load_excel_with_autodetect [["Report"], ["meta", "x"]] ["transact", "rrn"] =
        Except.error "Could not detect header") := by
  constructor
  · exact ((claim_C4_header_autodetect
        [["Report"], ["meta", "x"], ["Transaction ID", "RRN No"], ["1", "2"]]
        ["transact", "rrn"] (by decide)).1 2).mpr
      ⟨["Transaction ID", "RRN No"], by decide, by decide, by decide⟩
  · exact ((claim_C4_header_autodetect [["Report"], ["meta", "x"]]
        ["transact", "rrn"] (by decide)).2).mpr (by decide)

theorem dropWhile_ws_eq_self {l : List Char} (h : ∀ c ∈ l, c.isWhitespace = false) :
    l.dropWhile Char.isWhitespace = l := by
  cases l with
  | nil => rfl
  | cons a t =>
    rw [List.dropWhile_cons]
    simp [h a (by simp)]

theorem trimChars_eq_self {l : List Char} (h : ∀ c ∈ l, c.isWhitespace = false) :
    trimChars l = l := by
  unfold trimChars
  rw [dropWhile_ws_eq_self h,
    dropWhile_ws_eq_self (fun c hc => h c (List.mem_reverse.mp hc)), List.reverse_reverse]

theorem pyStrip_eq_self {s : String} (h : ∀ c ∈ s.data, c.isWhitespace = false) :
    pyStrip s = s := by
  cases s with
  | mk d =>
    unfold pyStrip
    rw [trimChars_eq_self h]

/-- On a string of plain characters (no commas, no whitespace) the
cleaning steps of `parse_amount` are the identity, and the function is
the pure sign/parse combination. -/
theorem parse_amount_plain (v : String) (hv : ∀ c ∈ v.data, plainChar c = true)
    (hne : v.data ≠ []) :
    parse_amount v =
      if strEndsWith v "DB" then (pyFloat (dropLastTwo v)).getD 0
      else if strEndsWith v "CR" then -((pyFloat (dropLastTwo v)).getD 0)
      else (pyFloat v).getD 0 := by
  have hws : ∀ c ∈ v.data, c.isWhitespace = false := by
    intro c hc
    have := hv c hc
    simp [plainChar] at this
    exact this.2
  have hstrip : pyStrip v = v := pyStrip_eq_self hws
  have hfilter : v.data.filter (fun c => c != ',') = v.data := by
    refine List.filter_eq_self.mpr fun c hc => ?_
    have := hv c hc
    simp [plainChar] at this ⊢
    exact this.1
  have hmk : String.mk v.data = v := by cases v; rfl
  unfold parse_amount
  rw [hstrip, hfilter, hmk, hstrip]
  rw [if_neg (by simpa [List.isEmpty_iff] using hne)]
  by_cases hdb : strEndsWith v "DB"
  · simp [hdb]
  · simp only [hdb, Bool.false_eq_true, if_false]
    by_cases hcr : strEndsWith v "CR"
    · simp only [hcr, if_true]
      cases h : pyFloat (dropLastTwo v) <;> simp [h]
    · simp [hcr]

/-- C7: `parse_amount("1,540,000.00DB") = 1540000.00`,
`parse_amount("1,500.00CR") = -1500.00`, `parse_amount("") = 0.0`,
`parse_amount("abc") = 0.0`; and on clean amount strings a `DB` suffix
yields the positive parsed value, a `CR` suffix its negation, and with no
suffix the value is the parsed number, with 0 for any unparsable
remainder; the function is total (never raises). -/
theorem claim_C7_parse_amount :
    parse_amount "1,540,000.00DB" = 1540000 ∧
    parse_amount "1,500.00CR" = -1500 ∧
    parse_amount "" = 0 ∧
    parse_amount "abc" = 0 ∧
    (∀ s q, s.data.all plainChar = true → pyFloat s = some q →
      parse_amount (s ++ "DB") = q ∧ parse_amount (s ++ "CR") = -q) ∧
    (∀ s, s.data.all plainChar = true →
      strEndsWith s "DB" = false → strEndsWith s "CR" = false →
      parse_amount s = (pyFloat s).getD 0) := by
  refine ⟨?_, ?_, by decide, ?_, ?_, ?_⟩
  · have h1 : parse_amount "1,540,000.00DB" = (pyFloat "1540000.00").getD 0 := rfl
    have h2 : pyFloat "1540000.00" =
        some ((1 : ℚ) * (((1540000 : ℕ) : ℚ) + ((0 : ℕ) : ℚ) / (10 : ℚ) ^ 2)) := rfl
    rw [h1, h2]
    norm_num
  · have h1 : parse_amount "1,500.00CR" =
        -((1 : ℚ) * (((1500 : ℕ) : ℚ) + ((0 : ℕ) : ℚ) / (10 : ℚ) ^ 2)) := rfl
    rw [h1]
    norm_num
  · have h1 : parse_amount "abc" = (pyFloat "abc").getD 0 := rfl
    rw [h1]
    rfl
  · intro s q hall hq
    have hsall : ∀ c ∈ s.data, plainChar c = true := fun c hc => List.all_eq_true.mp hall c hc
    constructor
    · have hdata : (s ++ "DB").data = s.data ++ ['D', 'B'] := String.data_append s "DB"
      have hvall : ∀ c ∈ (s ++ "DB").data, plainChar c = true := by
        rw [hdata]
        intro c hc
        rcases List.mem_append.mp hc with h1 | h2
        · exact hsall c h1
        · have : c = 'D' ∨ c = 'B' := by simpa using h2
          rcases this with rfl | rfl <;> decide
      have hne2 : (s ++ "DB").data ≠ [] := by rw [hdata]; simp
      rw [parse_amount_plain _ hvall hne2]
      have hDB : strEndsWith (s ++ "DB") "DB" = true := by
        unfold strEndsWith
        rw [hdata]
        simp [List.isSuffixOf]
      have hdrop : dropLastTwo (s ++ "DB") = s := by
        unfold dropLastTwo
        rw [hdata]
        have h3 : s.data ++ ['D', 'B'] = (s.data ++ ['D']) ++ ['B'] := by simp
        rw [h3, List.dropLast_concat, List.dropLast_concat]
      simp only [hDB, if_true, hdrop, hq, Option.getD_some]
    · have hdata : (s ++ "CR").data = s.data ++ ['C', 'R'] := String.data_append s "CR"
      have hvall : ∀ c ∈ (s ++ "CR").data, plainChar c = true := by
        rw [hdata]
        intro c hc
        rcases List.mem_append.mp hc with h1 | h2
        · exact hsall c h1
        · have : c = 'C' ∨ c = 'R' := by simpa using h2
          rcases this with rfl | rfl <;> decide
      have hne2 : (s ++ "CR").data ≠ [] := by rw [hdata]; simp
      rw [parse_amount_plain _ hvall hne2]
      have hnotDB : strEndsWith (s ++ "CR") "DB" = false := by
        unfold strEndsWith
        rw [hdata]
        simp [List.isSuffixOf, List.isPrefixOf]
      have hCR : strEndsWith (s ++ "CR") "CR" = true := by
        unfold strEndsWith
        rw [hdata]
        simp [List.isSuffixOf]
      have hdrop : dropLastTwo (s ++ "CR") = s := by
        unfold dropLastTwo
        rw [hdata]
        have h3 : s.data ++ ['C', 'R'] = (s.data ++ ['C']) ++ ['R'] := by simp
        rw [h3, List.dropLast_concat, List.dropLast_concat]
      simp only [hnotDB, Bool.false_eq_true, if_false, hCR, if_true, hdrop, hq, Option.getD_some]
  · intro s hall hdb hcr
    by_cases hne : s.data = []
    · have hs : s = "" := by
        cases s with
        | mk d => simpa using congrArg String.mk hne
      rw [hs]
      rfl
    · rw [parse_amount_plain s (fun c hc => List.all_eq_true.mp hall c hc) hne]
      simp [hdb, hcr]

/-- Witness for C7 at concrete inputs: `"12.50"` parses, the `DB`/`CR`
suffixes give the signed values, and the unparsable `"abc"` falls back to
the default. -/
theorem claim_C7_parse_amount_witness :
    parse_amount ("12.50" ++ "DB") = (pyFloat "12.50").get (by rfl) ∧
    parse_amount ("12.50" ++ "CR") = -((pyFloat "12.50").get (by rfl)) ∧
    parse_amount "abc" = (pyFloat "abc").getD 0 := by
  have hsome : (pyFloat "12.50").isSome = true := rfl
  have hq : pyFloat "12.50" = some ((pyFloat "12.50").get hsome) := (Option.some_get hsome).symm
  obtain ⟨h1, h2⟩ := claim_C7_parse_amount.2.2.2.2.1 "12.50" _ (by decide) hq
  exact ⟨h1, h2, claim_C7_parse_amount.2.2.2.2.2 "abc" (by decide) (by decide) (by decide)⟩

/-- C3: For every text-report line whose canonicalized section label is in
the valid-section set and which contains at least one numeric token, the
parser assigns the first extracted token to CR, the second to DR and the
third to Net, positionally; with fewer than three tokens the entry's Net
equals DR − CR (a missing DR being taken as 0.0). -/
theorem claim_C3_text_line_positional (line : String)
    (hsec : validSections.contains (lineSection (pyStrip line)) = true)
    (hnum : findNumbers (pyStrip line).data ≠ []) :
    ∃ e : Entry,
      extractLineEntry line = some (lineSection (pyStrip line), e) ∧
      e.cr = parse_amount ((findNumbers (pyStrip line).data).getD 0 "") ∧
      e.dr = (if 2 ≤ (findNumbers (pyStrip line).data).length
              then parse_amount ((findNumbers (pyStrip line).data).getD 1 "") else 0) ∧
      e.net = (if 3 ≤ (findNumbers (pyStrip line).data).length
               then parse_amount ((findNumbers (pyStrip line).data).getD 2 "") else e.dr - e.cr) ∧
      ((findNumbers (pyStrip line).data).length < 3 → e.net = e.dr - e.cr) := by
  have hne : (pyStrip line).data ≠ [] := by
    intro h0
    apply hnum
    unfold findNumbers
    rw [h0]
    rfl
  have hisEmpty : (pyStrip line).data.isEmpty = false := by
    simpa [List.isEmpty_iff] using hne
  have hmem : lineSection (pyStrip line) ∈ validSections := by simpa using hsec
  cases hn : findNumbers (pyStrip line).data with
  | nil => exact absurd hn hnum
  | cons n0 rest =>
    cases rest with
    | nil =>
      refine ⟨⟨0, parse_amount n0, 0 - parse_amount n0⟩, ?_, ?_, ?_, ?_, fun _ => rfl⟩
      · simp [extractLineEntry, hisEmpty, hmem, hn]
      · simp [hn]
      · simp [hn]
      · simp [hn]
    | cons n1 rest2 =>
      cases rest2 with
      | nil =>
        refine ⟨⟨parse_amount n1, parse_amount n0, parse_amount n1 - parse_amount n0⟩,
          ?_, ?_, ?_, ?_, fun _ => rfl⟩
        · simp [extractLineEntry, hisEmpty, hmem, hn]
        · simp [hn]
        · simp [hn]
        · simp [hn]
      | cons n2 rest3 =>
        refine ⟨⟨parse_amount n1, parse_amount n0, parse_amount n2⟩, ?_, ?_, ?_, ?_, ?_⟩
        · simp [extractLineEntry, hisEmpty, hmem, hn]
        · simp [hn]
        · simp [hn]
        · simp [hn]
        · intro hlt
          simp only [List.length_cons] at hlt
          omega

/-- Witness for C3 at a concrete two-token line: the section is kept and
Net is derived as DR − CR. -/
theorem claim_C3_text_line_positional_witness :
    ((extractLineEntry "INTERCHANGE 1,540,000.00DB 1,500.00CR").get (by rfl)).1 =
      "INTERCHANGE" ∧
    ((extractLineEntry "INTERCHANGE 1,540,000.00DB 1,500.00CR").get (by rfl)).2.net =
      ((extractLineEntry "INTERCHANGE 1,540,000.00DB 1,500.00CR").get (by rfl)).2.dr -
        ((extractLineEntry "INTERCHANGE 1,540,000.00DB 1,500.00CR").get (by rfl)).2.cr := by
  obtain ⟨e, h1, _, _, _, h5⟩ :=
    claim_C3_text_line_positional "INTERCHANGE 1,540,000.00DB 1,500.00CR" (by decide) (by decide)
  simp only [h1, Option.get_some]
  have hs : lineSection (pyStrip "INTERCHANGE 1,540,000.00DB 1,500.00CR") = "INTERCHANGE" := by
    decide
  exact ⟨hs, h5 (by decide)⟩

theorem dictGet_dictInsert {V : Type} (d : List (String × V)) (k K : String) (v : V) :
    dictGet (dictInsert d k v) K = if K = k then some v else dictGet d K := by
  induction d with
  | nil =>
    by_cases h : K = k
    · simp [dictInsert, dictGet, h]
    · simp [dictInsert, dictGet, h, Ne.symm h]
  | cons p t ih =>
    obtain ⟨k', v'⟩ := p
    by_cases h1 : k' = k
    · subst h1
      by_cases h2 : K = k'
      · subst h2
        simp [dictInsert, dictGet]
      · simp [dictInsert, dictGet, h2, Ne.symm h2]
    · by_cases h2 : K = k'
      · subst h2
        simp [dictInsert, dictGet, h1, Ne.symm h1]
      · have hins : dictInsert ((k', v') :: t) k v = (k', v') :: dictInsert t k v := by
          simp [dictInsert, h1]
        have e1 : dictGet ((k', v') :: dictInsert t k v) K = dictGet (dictInsert t k v) K := by
          simp [dictGet, Ne.symm h2]
        have e2 : dictGet ((k', v') :: t) K = dictGet t K := by
          simp [dictGet, Ne.symm h2]
        rw [hins, e1, ih, e2]

theorem dictInsert_keys {V : Type} (d : List (String × V)) (k : String) (v : V) :
    (dictInsert d k v).map Prod.fst =
      if k ∈ d.map Prod.fst then d.map Prod.fst else d.map Prod.fst ++ [k] := by
  induction d with
  | nil => simp [dictInsert]
  | cons p t ih =>
    obtain ⟨k', v'⟩ := p
    by_cases h1 : k' = k
    · subst h1
      simp [dictInsert]
    · simp only [dictInsert, if_neg h1, List.map_cons, ih]
      by_cases h2 : k ∈ t.map Prod.fst
      · simp [h2, Ne.symm h1]
      · simp [h2, Ne.symm h1]

theorem dictInsert_nodup_keys {V : Type} {d : List (String × V)}
    (hd : (d.map Prod.fst).Nodup) (k : String) (v : V) :
    ((dictInsert d k v).map Prod.fst).Nodup := by
  rw [dictInsert_keys]
  by_cases h : k ∈ d.map Prod.fst
  · simpa [h] using hd
  · simp [h, List.nodup_append, hd]

/-- The canonical keys of a normalized section dict never repeat. -/
theorem normalize_sections_keys_nodup (d : List (String × Entry)) :
    ((normalize_sections d).map Prod.fst).Nodup := by
  induction d using List.reverseRecOn with
  | nil => simp [normalize_sections]
  | append_singleton d p ih =>
    unfold normalize_sections at ih ⊢
    rw [List.foldl_append]
    simp only [List.foldl_cons, List.foldl_nil]
    exact dictInsert_nodup_keys ih _ _

/-- Lookup after section normalization returns the value of the *last*
raw entry whose canonical key matches: a collision silently keeps the
entry processed last. -/
theorem normalize_sections_lookup (d : List (String × Entry)) (K : String) :
    dictGet (normalize_sections d) K =
      ((d.filter (fun p => sectionKey p.1 = K)).getLast?).map Prod.snd := by
  induction d using List.reverseRecOn with
  | nil => rfl
  | append_singleton d p ih =>
    obtain ⟨k, e⟩ := p
    unfold normalize_sections at ih ⊢
    rw [List.foldl_append]
    simp only [List.foldl_cons, List.foldl_nil]
    rw [dictGet_dictInsert]
    by_cases h : K = sectionKey k
    · rw [if_pos h, List.filter_append]
      have hf : List.filter (fun p => decide (sectionKey p.1 = K)) [(k, e)] = [(k, e)] := by
        simp [h.symm]
      rw [hf]
      simp
    · rw [if_neg h, ih, List.filter_append]
      have hf : List.filter (fun p => decide (sectionKey p.1 = K)) [(k, e)] = [] := by
        simp
        exact Ne.symm h
      rw [hf, List.append_nil]

/-- C10: When two distinct raw section keys of one input normalize to the
same canonical name, section normalization keeps only the ledger values
of the key processed last and silently discards the earlier entry, so
`reconcile` always receives at most one entry per canonical section and
no error is produced for the collision (the function is total).  In
particular `TOTAL` followed by `NETSETTLEMENT` leaves only the latter's
values under `Total`. -/
theorem claim_C10_section_collision_last_wins :
    (∀ d : List (String × Entry), ((normalize_sections d).map Prod.fst).Nodup) ∧
    (∀ (d : List (String × Entry)) (K : String),
      dictGet (normalize_sections d) K =
        ((d.filter (fun p => sectionKey p.1 = K)).getLast?).map Prod.snd) ∧
    (∀ e1 e2 : Entry,
      normalize_sections [("TOTAL", e1), ("NETSETTLEMENT", e2)] = [("Total", e2)]) :=
  ⟨normalize_sections_keys_nodup, normalize_sections_lookup, fun _ _ => rfl⟩

theorem rowsFor_filter_length (sec : String) (be ve : Entry) (s f : String) :
    ((rowsFor sec be ve).filter (fun r => r.sec == s && r.check == f)).length =
      if s = sec ∧ f ∈ fields then 1 else 0 := by
  by_cases hs : s = sec
  · subst hs
    by_cases h1 : f = "DR"
    · subst h1; simp [rowsFor, fields, mkRow]
    · by_cases h2 : f = "CR"
      · subst h2; simp [rowsFor, fields, mkRow]
      · by_cases h3 : f = "Net"
        · subst h3; simp [rowsFor, fields, mkRow]
        · simp [rowsFor, fields, mkRow, h1, h2, h3, Ne.symm h1, Ne.symm h2, Ne.symm h3]
  · simp [rowsFor, fields, mkRow, hs, Ne.symm hs]

theorem reconcileWith_count (order : List String) (hnd : order.Nodup)
    (b v : List (String × Entry)) (s f : String) :
    ((reconcileWith order b v).filter (fun r => r.sec == s && r.check == f)).length =
      if s ∈ order ∧ f ∈ fields then 1 else 0 := by
  induction order with
  | nil => simp [reconcileWith]
  | cons sec rest ih =>
    have hsec : sec ∉ rest := (List.nodup_cons.mp hnd).1
    have hstep : reconcileWith (sec :: rest) b v =
        rowsFor sec ((dictGet b sec).getD defaultEntry) ((dictGet v sec).getD defaultEntry) ++
          reconcileWith rest b v := by
      simp [reconcileWith]
    rw [hstep, List.filter_append, List.length_append, rowsFor_filter_length,
      ih (List.Nodup.of_cons hnd)]
    by_cases hs : s = sec
    · subst hs
      by_cases hf : f ∈ fields <;> simp [hf, hsec]
    · simp [hs, List.mem_cons]

theorem entryField_default (f : String) : entryField defaultEntry f = 0 := by
  unfold entryField defaultEntry
  split
  · rfl
  · split <;> rfl

theorem reconcileWith_bank_missing (order : List String) (b v : List (String × Entry))
    (s : String) (hb : dictGet b s = none) :
    ∀ r ∈ reconcileWith order b v, r.sec = s → r.bankVal = 0 := by
  intro r hr hrs
  rcases List.mem_flatMap.mp hr with ⟨sec, _, hrow⟩
  rcases List.mem_map.mp hrow with ⟨f, _, hmk⟩
  rw [← hmk] at hrs ⊢
  have hsec : sec = s := hrs
  rw [show (mkRow sec f (entryField ((dictGet b sec).getD defaultEntry) f)
      (entryField ((dictGet v sec).getD defaultEntry) f)).bankVal =
      entryField ((dictGet b sec).getD defaultEntry) f from rfl]
  rw [hsec, hb]
  exact entryField_default f

theorem reconcileWith_visa_missing (order : List String) (b v : List (String × Entry))
    (s : String) (hv : dictGet v s = none) :
    ∀ r ∈ reconcileWith order b v, r.sec = s → r.visaVal = 0 := by
  intro r hr hrs
  rcases List.mem_flatMap.mp hr with ⟨sec, _, hrow⟩
  rcases List.mem_map.mp hrow with ⟨f, _, hmk⟩
  rw [← hmk] at hrs ⊢
  have hsec : sec = s := hrs
  rw [show (mkRow sec f (entryField ((dictGet b sec).getD defaultEntry) f)
      (entryField ((dictGet v sec).getD defaultEntry) f)).visaVal =
      entryField ((dictGet v sec).getD defaultEntry) f from rfl]
  rw [hsec, hv]
  exact entryField_default f

/-- C1: `reconcile` emits exactly one row per (section, field) pair, the
sections ranging over the union of the two normalized inputs' keys and
the fields over DR, CR, Net; no pair is skipped or duplicated, and a
section absent from one side contributes 0.0 for all its fields on that
side. -/
theorem claim_C1_reconcile_complete (bank visa : List (String × Entry)) :
    (∀ s f, ((reconcile bank visa).filter (fun r => r.sec == s && r.check == f)).length =
        if s ∈ unionKeys (normalize_sections bank) (normalize_sections visa) ∧ f ∈ fields
        then 1 else 0) ∧
    (∀ s, dictGet (normalize_sections bank) s = none →
      ∀ r ∈ reconcile bank visa, r.sec = s → r.bankVal = 0) ∧
    (∀ s, dictGet (normalize_sections visa) s = none →
      ∀ r ∈ reconcile bank visa, r.sec = s → r.visaVal = 0) := by
  refine ⟨?_, ?_, ?_⟩
  · intro s f
    exact reconcileWith_count _ (List.nodup_dedup _) _ _ s f
  · intro s hb r hr hrs
    exact reconcileWith_bank_missing _ _ _ s hb r hr hrs
  · intro s hv r hr hrs
    exact reconcileWith_visa_missing _ _ _ s hv r hr hrs

/-- Witness for C1 at a concrete input: a bank-only section produces its
row exactly once, and its visa side defaults to 0. -/
theorem claim_C1_reconcile_complete_witness :
    ((reconcile [("Interchange", (⟨1, 2, 3⟩ : Entry))] []).filter
        (fun r => r.sec == "Interchange" && r.check == "DR")).length = 1 ∧
    ((reconcile [("Interchange", (⟨1, 2, 3⟩ : Entry))] []).head
        (fun h0 => absurd (congrArg List.length h0) (by decide))).visaVal = 0 := by
  constructor
  · have h := (claim_C1_reconcile_complete [("Interchange", (⟨1, 2, 3⟩ : Entry))] []).1
      "Interchange" "DR"
    rw [if_pos ⟨by decide, by decide⟩] at h
    exact h
  · exact (claim_C1_reconcile_complete [("Interchange", (⟨1, 2, 3⟩ : Entry))] []).2.2
      "Interchange" rfl _ (List.head_mem _) rfl

theorem swapRow_rowsFor (sec : String) (be ve : Entry) :
    (rowsFor sec be ve).map swapRow = rowsFor sec ve be := by
  unfold rowsFor
  rw [List.map_map]
  apply List.map_congr_left
  intro f _
  simp only [Function.comp_apply, swapRow, mkRow, neg_sub]
  congr 1
  by_cases h : entryField be f = entryField ve f
  · simp [h]
  · simp [h, Ne.symm h]

theorem unionKeys_perm (b v : List (String × Entry)) :
    (unionKeys v b).Perm (unionKeys b v) := by
  unfold unionKeys
  rw [List.perm_ext_iff_of_nodup (List.nodup_dedup _) (List.nodup_dedup _)]
  intro a
  simp only [List.mem_dedup, List.mem_append]
  exact or_comm

/-- C5: Reconciliation is symmetric in structure: as multisets of rows,
`reconcile(v, b)` is `reconcile(b, v)` with the two value columns swapped
and the difference negated, the status of each row unchanged. -/
theorem claim_C5_reconcile_symmetric (bank visa : List (String × Entry)) :
    ((reconcile visa bank : List Row) : Multiset Row) =
      (((reconcile bank visa).map swapRow : List Row) : Multiset Row) := by
  rw [Multiset.coe_eq_coe]
  unfold reconcile reconcileWith
  rw [List.map_flatMap]
  have hfun : ∀ sec,
      ((rowsFor sec ((dictGet (normalize_sections bank) sec).getD defaultEntry)
        ((dictGet (normalize_sections visa) sec).getD defaultEntry)).map swapRow) =
      rowsFor sec ((dictGet (normalize_sections visa) sec).getD defaultEntry)
        ((dictGet (normalize_sections bank) sec).getD defaultEntry) :=
    fun sec => swapRow_rowsFor sec _ _
  rw [List.flatMap_congr (fun sec _ => hfun sec)]
  exact List.Perm.flatMap_right _ (unionKeys_perm _ _)

theorem isEnumOf_perm {o1 o2 : List String} {bank visa : List (String × Entry)}
    (h1 : IsEnumOf o1 bank visa) (h2 : IsEnumOf o2 bank visa) : o1.Perm o2 := by
  rw [List.perm_ext_iff_of_nodup h1.1 h2.1]
  exact fun a => (h1.2 a).trans (h2.2 a).symm

/-- C8 counterexample: two admissible iteration orders of the union set
of the same pair of inputs produce different row sequences, so the output
sequence is not a function of the inputs alone. -/
theorem claim_C8_counterexample_order_dependent :
    IsEnumOf ["Interchange", "Reimbursement"] [("Interchange", (⟨1, 2, 3⟩ : Entry))]
      [("Reimbursement", (⟨4, 5, 6⟩ : Entry))] ∧
    IsEnumOf ["Reimbursement", "Interchange"] [("Interchange", (⟨1, 2, 3⟩ : Entry))]
      [("Reimbursement", (⟨4, 5, 6⟩ : Entry))] ∧
    reconcileEnum ["Interchange", "Reimbursement"] [("Interchange", (⟨1, 2, 3⟩ : Entry))]
        [("Reimbursement", (⟨4, 5, 6⟩ : Entry))] ≠
      reconcileEnum ["Reimbursement", "Interchange"] [("Interchange", (⟨1, 2, 3⟩ : Entry))]
        [("Reimbursement", (⟨4, 5, 6⟩ : Entry))] := by
  refine ⟨⟨by decide, fun s => Iff.rfl⟩, ⟨by decide, fun s => ?_⟩, fun h => ?_⟩
  · rw [show unionKeys
        (normalize_sections [("Interchange", (⟨1, 2, 3⟩ : Entry))])
        (normalize_sections [("Reimbursement", (⟨4, 5, 6⟩ : Entry))]) =
        ["Interchange", "Reimbursement"] from rfl]
    simp only [List.mem_cons, List.not_mem_nil, or_false]
    exact or_comm
  · exact absurd (congrArg (List.map Row.sec) h) (by decide)

/-- C8 amended: for a fixed pair of inputs the multiset of output rows is
the same under every admissible iteration order of the section set; only
the sequence depends on the order, which the code does not fix. -/
theorem claim_C8_amended_stable_multiset (bank visa : List (String × Entry))
    (o1 o2 : List String) (h1 : IsEnumOf o1 bank visa) (h2 : IsEnumOf o2 bank visa) :
    ((reconcileEnum o1 bank visa : List Row) : Multiset Row) =
      ((reconcileEnum o2 bank visa : List Row) : Multiset Row) := by
  rw [Multiset.coe_eq_coe]
  unfold reconcileEnum reconcileWith
  exact List.Perm.flatMap_right _ (isEnumOf_perm h1 h2)

/-- Witness for C8's amended statement at the counterexample's inputs and
orders. -/
theorem claim_C8_amended_stable_multiset_witness :
    ((reconcileEnum ["Interchange", "Reimbursement"] [("Interchange", (⟨1, 2, 3⟩ : Entry))]
        [("Reimbursement", (⟨4, 5, 6⟩ : Entry))] : List Row) : Multiset Row) =
      ((reconcileEnum ["Reimbursement", "Interchange"] [("Interchange", (⟨1, 2, 3⟩ : Entry))]
        [("Reimbursement", (⟨4, 5, 6⟩ : Entry))] : List Row) : Multiset Row) := by
  refine claim_C8_amended_stable_multiset _ _ _ _ ⟨by decide, fun s => Iff.rfl⟩
    ⟨by decide, fun s => ?_⟩
  rw [show unionKeys
      (normalize_sections [("Interchange", (⟨1, 2, 3⟩ : Entry))])
      (normalize_sections [("Reimbursement", (⟨4, 5, 6⟩ : Entry))]) =
      ["Interchange", "Reimbursement"] from rfl]
  simp only [List.mem_cons, List.not_mem_nil, or_false]
  exact or_comm

/-- C2: `calculate_fee_amount` always returns a structured record (the
embedded function is total and the record always carries the trimmed
formula); a formula matching no classification trigger yields the
`'Unknown Formula'` record with amount 0 as a normal return with a
diagnostic note; and a failure of numeric extraction inside a triggered
branch yields an `'Error'`-style record with amount 0 instead of an
exception. -/
theorem claim_C2_fee_formula_total (formula : String) (c t : ℤ) (a : ℚ) :
    ((calculate_fee_amount formula c t a).formula = pyStrip formula) ∧
    ((strContains (pyLower (pyStrip formula)) "first" &&
        strContains (pyLower (pyStrip formula)) "thereafter") = false →
      strContains (pyLower (pyStrip formula)) "per transaction" = false →
      strContains (pyLower (pyStrip formula)) "per dispute" = false →
      (strContains (pyLower (pyStrip formula)) "no of tran" &&
        strContains (pyStrip formula) "$") = false →
      strContains (pyLower (pyStrip formula)) "amount of tran" = false →
      strContains (pyLower (pyStrip formula)) "amout of tran" = false →
      isDigitStr (pyStrip formula) = false →
      calculate_fee_amount formula c t a =
        ⟨0, "Unknown Formula", pyStrip formula, none, some "Could not parse rate formula"⟩) ∧
    ((strContains (pyLower (pyStrip formula)) "first" &&
        strContains (pyLower (pyStrip formula)) "thereafter") = true →
      (firstNumber (pyStrip formula).data = none ∨
        thresholdNum (pyLower (pyStrip formula)).data = none) →
      calculate_fee_amount formula c t a =
        ⟨0, "Error in tiered calculation", pyStrip formula, none, none⟩) ∧
    ((strContains (pyLower (pyStrip formula)) "first" &&
        strContains (pyLower (pyStrip formula)) "thereafter") = false →
      strContains (pyLower (pyStrip formula)) "per transaction" = true →
      firstNumber (pyStrip formula).data = none →
      calculate_fee_amount formula c t a = ⟨0, "Error", pyStrip formula, none, none⟩) := by
  refine ⟨?_, ?_, ?_, ?_⟩
  · unfold calculate_fee_amount calculate_tiered_card_fee calculate_per_transaction_fee
      calculate_per_dispute_fee calculate_transaction_volume_fee
      calculate_transaction_amount_fee
    dsimp only
    split_ifs <;> (repeat' split) <;> rfl
  · intro h1 h2 h3 h4 h5 h6 h7
    simp [calculate_fee_amount, h1, h2, h3, h4, h5, h6, h7]
  · intro h1 hfail
    have hd : calculate_fee_amount formula c t a =
        calculate_tiered_card_fee (pyStrip formula) c := by
      simp [calculate_fee_amount, h1]
    rw [hd]
    rcases hfail with hfn | hth
    · simp [calculate_tiered_card_fee, hfn]
    · cases hfn : firstNumber (pyStrip formula).data <;>
        simp [calculate_tiered_card_fee, hfn, hth]
  · intro h1 h2 hfn
    have hd : calculate_fee_amount formula c t a =
        calculate_per_transaction_fee (pyStrip formula) t := by
      simp [calculate_fee_amount, h1, h2]
    rw [hd]
    simp [calculate_per_transaction_fee, hfn]

/-- Witness for C2 at concrete formulas: an unclassifiable formula, a
tiered trigger without numbers, and a per-transaction trigger without
numbers. -/
theorem claim_C2_fee_formula_total_witness :
    calculate_fee_amount "hello" 5 7 2 =
      ⟨0, "Unknown Formula", "hello", none, some "Could not parse rate formula"⟩ ∧
    calculate_fee_amount "first and thereafter" 5 7 2 =
      ⟨0, "Error in tiered calculation", "first and thereafter", none, none⟩ ∧
    calculate_fee_amount "per transaction only" 5 7 2 =
      ⟨0, "Error", "per transaction only", none, none⟩ := by
  refine ⟨?_, ?_, ?_⟩
  · exact (claim_C2_fee_formula_total "hello" 5 7 2).2.1 (by decide) (by decide) (by decide)
      (by decide) (by decide) (by decide) (by decide)
  · exact (claim_C2_fee_formula_total "first and thereafter" 5 7 2).2.2.1 (by decide) (by decide)
  · exact (claim_C2_fee_formula_total "per transaction only" 5 7 2).2.2.2 (by decide) (by decide)
      (by decide)

theorem mem_dictInsert {V : Type} {m : List (String × V)} {k : String} {v : V} {p : String × V}
    (h : p ∈ dictInsert m k v) : p ∈ m ∨ p = (k, v) := by
  induction m with
  | nil =>
    right
    simpa [dictInsert] using h
  | cons q t ih =>
    obtain ⟨k', v'⟩ := q
    unfold dictInsert at h
    by_cases hk : k' = k
    · rw [if_pos hk] at h
      rcases List.mem_cons.mp h with rfl | hmem
      · right
        rw [hk]
      · left
        exact List.mem_cons_of_mem _ hmem
    · rw [if_neg hk] at h
      rcases List.mem_cons.mp h with rfl | hmem
      · left
        exact List.mem_cons_self _ _
      · rcases ih hmem with h1 | h1
        · left
          exact List.mem_cons_of_mem _ h1
        · right
          exact h1

theorem exactStep_spec {invs : List String} {m : List (String × String)} {c : String}
    (hm : ∀ p ∈ m, p.2 ∈ invs ∧
      (normalize_fee_name p.1 = normalize_fee_name p.2 ∨ pairScore p.1 p.2 > 3 / 10)) :
    ∀ p ∈ exactStep invs m c, p.2 ∈ invs ∧
      (normalize_fee_name p.1 = normalize_fee_name p.2 ∨ pairScore p.1 p.2 > 3 / 10) := by
  intro p hp
  unfold exactStep at hp
  cases hfind : invs.find? (fun i => normalize_fee_name c == normalize_fee_name i) with
  | none =>
    rw [hfind] at hp
    exact hm p hp
  | some i =>
    rw [hfind] at hp
    rcases mem_dictInsert hp with h1 | rfl
    · exact hm p h1
    · refine ⟨List.mem_of_find?_eq_some hfind, Or.inl ?_⟩
      have := List.find?_some hfind
      simpa using this

theorem exactFold_spec (invs : List String) :
    ∀ (l : List String) (m : List (String × String)),
      (∀ p ∈ m, p.2 ∈ invs ∧
        (normalize_fee_name p.1 = normalize_fee_name p.2 ∨ pairScore p.1 p.2 > 3 / 10)) →
      ∀ p ∈ l.foldl (exactStep invs) m, p.2 ∈ invs ∧
        (normalize_fee_name p.1 = normalize_fee_name p.2 ∨ pairScore p.1 p.2 > 3 / 10) := by
  intro l
  induction l with
  | nil => intro m hm; exact hm
  | cons c rest ih =>
    intro m hm
    rw [List.foldl_cons]
    exact ih _ (exactStep_spec hm)

theorem fuzzyFold_spec (c : String) (invs : List String) (i : String) :
    ∀ (l : List String) (st : Option String × ℚ),
      (∀ x ∈ l, x ∈ invs) →
      (st.1 = some i → i ∈ invs ∧ pairScore c i > 3 / 10) →
      (l.foldl (fuzzyStep c) st).1 = some i → i ∈ invs ∧ pairScore c i > 3 / 10 := by
  intro l
  induction l with
  | nil => intro st _ hst h; exact hst h
  | cons x rest ih =>
    intro st hl hst h
    rw [List.foldl_cons] at h
    refine ih _ (fun y hy => hl y (List.mem_cons_of_mem _ hy)) ?_ h
    intro hx
    unfold fuzzyStep at hx
    split at hx
    · split at hx
      · rename_i hcond
        simp only at hx
        have hxi : x = i := by simpa using hx
        subst hxi
        exact ⟨hl x (List.mem_cons_self _ _), hcond.2⟩
      · exact hst hx
    · exact hst hx

theorem fuzzyPass_spec {uinv invs : List String} (hsub : ∀ x ∈ uinv, x ∈ invs)
    {m : List (String × String)} {c : String}
    (hm : ∀ p ∈ m, p.2 ∈ invs ∧
      (normalize_fee_name p.1 = normalize_fee_name p.2 ∨ pairScore p.1 p.2 > 3 / 10)) :
    ∀ p ∈ fuzzyPass uinv m c, p.2 ∈ invs ∧
      (normalize_fee_name p.1 = normalize_fee_name p.2 ∨ pairScore p.1 p.2 > 3 / 10) := by
  intro p hp
  unfold fuzzyPass at hp
  cases hbest : (bestMatchFold c uinv).1 with
  | none =>
    rw [hbest] at hp
    exact hm p hp
  | some i =>
    rw [hbest] at hp
    rcases mem_dictInsert hp with h1 | rfl
    · exact hm p h1
    · have hspec := fuzzyFold_spec c invs i uinv (none, 0) hsub (by simp) hbest
      exact ⟨hspec.1, Or.inr hspec.2⟩

theorem fuzzyPhaseFold_spec {uinv invs : List String} (hsub : ∀ x ∈ uinv, x ∈ invs) :
    ∀ (l : List String) (m : List (String × String)),
      (∀ p ∈ m, p.2 ∈ invs ∧
        (normalize_fee_name p.1 = normalize_fee_name p.2 ∨ pairScore p.1 p.2 > 3 / 10)) →
      ∀ p ∈ l.foldl (fuzzyPass uinv) m, p.2 ∈ invs ∧
        (normalize_fee_name p.1 = normalize_fee_name p.2 ∨ pairScore p.1 p.2 > 3 / 10) := by
  intro l
  induction l with
  | nil => intro m hm; exact hm
  | cons c rest ih =>
    intro m hm
    rw [List.foldl_cons]
    exact ih _ (fuzzyPass_spec hsub hm)

/-- C6 amended: every pair the matcher returns pairs a calculated label
with a genuine invoice label, and any pair that is not an exact match
after normalization has token-set Jaccard similarity strictly above 0.3;
however, the matcher does not consume invoice labels — the same invoice
label can be assigned to several calculated labels (see the
counterexample), because neither phase removes an already-matched invoice
label from its candidate pool. -/
theorem claim_C6_amended_fuzzy_threshold (calcs invs : List String) (c i : String)
    (h : (c, i) ∈ fuzzy_match_fee_types calcs invs) :
    i ∈ invs ∧
      (normalize_fee_name c = normalize_fee_name i ∨ pairScore c i > 3 / 10) := by
  unfold fuzzy_match_fee_types at h
  have hexact := exactFold_spec invs calcs [] (by simp)
  have hsub : ∀ x ∈ invs.filter
      (fun i => !((calcs.foldl (exactStep invs) []).any (fun p => p.2 == i))), x ∈ invs :=
    fun x hx => List.mem_of_mem_filter hx
  exact fuzzyPhaseFold_spec hsub _ _ hexact (c, i) h

/-- C6 counterexample: with calculated labels `"x fee"` and `"x charge"`
and the single invoice label `"x"`, both calculated labels are matched to
the same invoice label: the returned mapping assigns one invoice label to
two different calculated labels, contradicting the at-most-one-match
claim. -/
theorem claim_C6_counterexample_invoice_reused :
    fuzzy_match_fee_types ["x fee", "x charge"] ["x"] = [("x fee", "x"), ("x charge", "x")] ∧
    ("x fee", "x") ∈ fuzzy_match_fee_types ["x fee", "x charge"] ["x"] ∧
    ("x charge", "x") ∈ fuzzy_match_fee_types ["x fee", "x charge"] ["x"] ∧
    "x fee" ≠ "x charge" := by
  decide

/-- Witness for C6's amended statement at a concrete exact-phase match. -/
theorem claim_C6_amended_fuzzy_threshold_witness :
    "x" ∈ ["x"] ∧
      (normalize_fee_name "x fee" = normalize_fee_name "x" ∨ pairScore "x fee" "x" > 3 / 10) :=
  claim_C6_amended_fuzzy_threshold ["x fee"] ["x"] "x fee" "x" (by decide)

end Recon
